import Mathlib

/-!
Verification of the core of `cgid` (src/src/lib.rs), a stdin/stdout
CGI/1.1 gateway.  The Rust functions `parse_header`, `set_header`,
`set_request`, `copy_exact` and the response-side status-scanning loop of
`main` are shallowly embedded below; strings are modelled as `List Char`,
byte streams as lists, and the process environment as an explicit
key-to-value mapping.
-/

namespace Cgid

/-- The error classes of the Rust `HTTP` enum (`_400`, `_500`). -/
inductive HTTP where
  | e400
  | e500
deriving DecidableEq, Repr

/-- States of the header-line state machine (Rust `enum Header`). -/
inductive Header where
  | Key
  | WS
  | Value
deriving DecidableEq, Repr

/-- The for-loop of Rust `parse_header`: walks the characters of the line
carrying the state, the `key` and `value` accumulators and the `valid`
flag; returns their final values (the loop breaks at a `\r` seen in the
`Value` state). -/
def parse_headerAux : List Char → Header → List Char → List Char → Bool →
    List Char × List Char × Bool
  | [], _, key, value, valid => (key, value, valid)
  | c :: cs, Header.Key, key, value, valid =>
      if c = ':' then parse_headerAux cs Header.WS key value true
      else parse_headerAux cs Header.Key (key ++ [c]) value valid
  | c :: cs, Header.WS, key, value, valid =>
      if c ≠ ' ' then parse_headerAux cs Header.Value key (value ++ [c]) valid
      else parse_headerAux cs Header.WS key value valid
  | c :: cs, Header.Value, key, value, valid =>
      if c = '\r' then (key, value, valid)
      else parse_headerAux cs Header.Value key (value ++ [c]) valid

/-- The post-processing Rust applies to the accumulated key:
`.to_uppercase().replace("-", "_")` (upper-casing is the identity on
`-`, so the two maps commute with the Rust order). -/
def normalize_key (key : List Char) : List Char :=
  (key.map Char.toUpper).map (fun c => if c = '-' then '_' else c)

/-- Rust `parse_header`: parses one header line into `(name, value)`,
returning `Err(())` exactly when the `valid` flag was never set. -/
def parse_header (line : List Char) : Except Unit (List Char × List Char) :=
  let r := parse_headerAux line Header.Key [] [] false
  if r.2.2 then Except.ok (normalize_key r.1, r.2.1) else Except.error ()

/-- Rust `usize::from_str` as used by `value.parse::<usize>()` on a 64-bit
target: an optional leading `+`, then one or more ASCII decimal digits,
with overflow beyond `usize::MAX` rejected at each step. -/
def USIZE_MAX : Nat := 2 ^ 64 - 1

/-- Numeric value of an ASCII decimal digit, `none` for any other
character. -/
def digitVal (c : Char) : Option Nat :=
  if '0' ≤ c ∧ c ≤ '9' then some (c.toNat - ('0').toNat) else none

/-- Digit-accumulation loop of the unsigned integer parse, rejecting
non-digits and overflow past `USIZE_MAX`. -/
def parseDigitsAux : List Char → Nat → Option Nat
  | [], acc => some acc
  | c :: cs, acc =>
      match digitVal c with
      | none => none
      | some d =>
          if acc * 10 + d ≤ USIZE_MAX then parseDigitsAux cs (acc * 10 + d)
          else none

/-- Rust `str::parse::<usize>()`: empty input and a bare sign are
rejected; otherwise the digit loop runs on the unsigned part. -/
def parseUsize (s : List Char) : Option Nat :=
  match s with
  | [] => none
  | '+' :: rest => if rest = [] then none else parseDigitsAux rest 0
  | _ => parseDigitsAux s 0

/-- The process environment, modelled as a key-to-value mapping. -/
def Env : Type := List Char → Option (List Char)

/-- Rust `env::set_var`: point update of the environment. -/
def setVar (e : Env) (k v : List Char) : Env :=
  fun k2 => if k2 = k then some v else e k2

/-- The mutable state Rust `set_header` can touch: the process
environment and the caller's `content_length` variable. -/
structure EnvState where
  env : Env
  content_length : Nat

/-- Rust `set_header`: parses the line, derives the environment key
(`HTTP_` + name, special-cased for `Content-Type` / `Content-Length`),
and returns the outcome together with the state after the call.  Error
returns happen before any mutation, exactly as in the source. -/
def set_header (line : List Char) (st : EnvState) : Except HTTP Unit × EnvState :=
  match parse_header line with
  | Except.error _ => (Except.error HTTP.e400, st)
  | Except.ok (key, value) =>
      let env_key := ("HTTP_").toList ++ key
      if env_key = ("HTTP_CONTENT_TYPE").toList then
        (Except.ok (), { st with env := setVar st.env (("CONTENT_TYPE").toList) value })
      else if env_key = ("HTTP_CONTENT_LENGTH").toList then
        match parseUsize value with
        | some n =>
            (Except.ok (),
             { env := setVar st.env (("CONTENT_LENGTH").toList) value,
               content_length := n })
        | none => (Except.error HTTP.e400, st)
      else
        (Except.ok (), { st with env := setVar st.env env_key value })

/-- States of the request-line state machine (Rust `enum Req`). -/
inductive Req where
  | Method
  | PathInfo
  | QueryString
  | Protocol
deriving DecidableEq, Repr

/-- The four fields `set_request` extracts from the request line. -/
structure RequestLine where
  method : List Char
  path_info : List Char
  query_string : List Char
  protocol : List Char
deriving DecidableEq, Repr

/-- The for-loop of Rust `set_request`: walks the request line carrying
the state and the four accumulators (the loop breaks at `\r` or `\n`
seen in the `Protocol` state). -/
def set_requestAux : List Char → Req → List Char → List Char → List Char → List Char →
    RequestLine
  | [], _, m, p, q, pr => ⟨m, p, q, pr⟩
  | c :: cs, Req.Method, m, p, q, pr =>
      if c = ' ' then set_requestAux cs Req.PathInfo m p q pr
      else set_requestAux cs Req.Method (m ++ [c]) p q pr
  | c :: cs, Req.PathInfo, m, p, q, pr =>
      if c = '?' then set_requestAux cs Req.QueryString m p q pr
      else if c = ' ' then set_requestAux cs Req.Protocol m p q pr
      else set_requestAux cs Req.PathInfo m (p ++ [c]) q pr
  | c :: cs, Req.QueryString, m, p, q, pr =>
      if c = ' ' then set_requestAux cs Req.Protocol m p q pr
      else set_requestAux cs Req.QueryString m p (q ++ [c]) pr
  | c :: cs, Req.Protocol, m, p, q, pr =>
      if c = '\n' ∨ c = '\r' then ⟨m, p, q, pr⟩
      else set_requestAux cs Req.Protocol m p q (pr ++ [c])

/-- Rust `set_request`: extracts method, path info, query string and
protocol from the request line (the source then stores them in the
environment; the extraction is what the claims are about). -/
def set_request (line : List Char) : RequestLine :=
  set_requestAux line Req.Method [] [] [] []

/-- Fixed buffer size of Rust `copy_exact` (64 KiB). -/
def BUFFER_SIZE : Nat := 64 * 1024

/-- Rust `Read::read_exact` on a byte stream modelled as a list: returns
the first `n` elements and the remainder, or fails when the stream ends
before `n` elements were delivered (the contract of `read_exact`
regardless of how the underlying reads are chunked). -/
def read_exact {α : Type} (src : List α) (n : Nat) : Option (List α × List α) :=
  if n ≤ src.length then some (src.take n, src.drop n) else none

/-- Rust `copy_exact`: while more than one buffer's worth remains, read
and write full `BUFFER_SIZE` chunks; then read and write exactly the
remainder.  `sink` holds the bytes written so far; the result is the
final sink contents on success, `none` on an I/O error. -/
def copy_exact {α : Type} (src sink : List α) (length : Nat) : Option (List α) :=
  if h : BUFFER_SIZE < length then
    match read_exact src BUFFER_SIZE with
    | none => none
    | some (chunk, rest) => copy_exact rest (sink ++ chunk) (length - BUFFER_SIZE)
  else
    match read_exact src length with
    | none => none
    | some (chunk, _) => some (sink ++ chunk)
termination_by length
decreasing_by
  simp only [BUFFER_SIZE] at h ⊢
  omega

/-- The response-side loop of Rust `main`: reads the child's output one
line at a time, parses each with `parse_header`, exits with a server
error when a line fails to parse (end of stream makes `read_line`
deliver an empty line, which fails to parse), discards parsed non-STATUS
headers, and on the first STATUS header returns the emitted client bytes
`HTTP/1.0 <value>\r\n` together with the unread remainder of the
stream. -/
def status_scan : List (List Char) → Except Unit (List Char × List (List Char))
  | [] => Except.error ()
  | l :: ls =>
      match parse_header l with
      | Except.error _ => Except.error ()
      | Except.ok (k, v) =>
          if k = ("STATUS").toList then
            Except.ok (("HTTP/1.0 ").toList ++ v ++ ['\r', '\n'], ls)
          else
            status_scan ls

/-! ### Lemmas about the header-line state machine -/

theorem parse_headerAux_value_noCR (w : List Char) (k v : List Char) (b : Bool)
    (hw : '\r' ∉ w) :
    parse_headerAux w Header.Value k v b = (k, v ++ w, b) := by
  induction w generalizing v with
  | nil => simp [parse_headerAux]
  | cons c cs ih =>
      have hc : c ≠ '\r' := fun h => hw (h ▸ List.mem_cons_self c cs)
      have hw2 : '\r' ∉ cs := fun h => hw (List.mem_cons_of_mem c h)
      simp only [parse_headerAux, if_neg hc, ih (v ++ [c]) hw2, List.append_assoc,
        List.singleton_append]

theorem parse_headerAux_value_CR (w : List Char) (rest : List Char) (k v : List Char)
    (b : Bool) (hw : '\r' ∉ w) :
    parse_headerAux (w ++ '\r' :: rest) Header.Value k v b = (k, v ++ w, b) := by
  induction w generalizing v with
  | nil => simp [parse_headerAux]
  | cons c cs ih =>
      have hc : c ≠ '\r' := fun h => hw (h ▸ List.mem_cons_self c cs)
      have hw2 : '\r' ∉ cs := fun h => hw (List.mem_cons_of_mem c h)
      simp only [List.cons_append, parse_headerAux, if_neg hc, List.append_eq]
      rw [ih (v ++ [c]) hw2]
      simp

theorem parse_headerAux_ws_skip (n : Nat) (rest : List Char) (k v : List Char) (b : Bool) :
    parse_headerAux (List.replicate n ' ' ++ rest) Header.WS k v b =
      parse_headerAux rest Header.WS k v b := by
  induction n with
  | zero => simp
  | succ m ih => simpa [parse_headerAux] using ih

theorem parse_headerAux_key (name : List Char) (rest : List Char) (k v : List Char)
    (b : Bool) (hname : ':' ∉ name) :
    parse_headerAux (name ++ ':' :: rest) Header.Key k v b =
      parse_headerAux rest Header.WS (k ++ name) v true := by
  induction name generalizing k with
  | nil => simp [parse_headerAux]
  | cons c cs ih =>
      have hc : c ≠ ':' := fun h => hname (h ▸ List.mem_cons_self c cs)
      have h2 : ':' ∉ cs := fun h => hname (List.mem_cons_of_mem c h)
      simp only [List.cons_append, parse_headerAux, if_neg hc, List.append_eq]
      rw [ih (k ++ [c]) h2]
      simp

theorem parse_header_wf_noCR (name : List Char) (n : Nat) (c : Char) (cs : List Char)
    (hname : ':' ∉ name) (hc : c ≠ ' ') (hcr : '\r' ∉ c :: cs) :
    parse_header (name ++ ':' :: (List.replicate n ' ' ++ c :: cs)) =
      Except.ok (normalize_key name, c :: cs) := by
  have hcs : '\r' ∉ cs := fun h => hcr (List.mem_cons_of_mem c h)
  simp only [parse_header]
  rw [parse_headerAux_key _ _ _ _ _ hname, parse_headerAux_ws_skip]
  simp only [parse_headerAux, if_pos hc, List.nil_append, List.append_eq]
  rw [parse_headerAux_value_noCR _ _ _ _ hcs]
  simp

theorem parse_header_wf_CR (name : List Char) (n : Nat) (c : Char) (cs rest : List Char)
    (hname : ':' ∉ name) (hc : c ≠ ' ') (hcr : '\r' ∉ c :: cs) :
    parse_header (name ++ ':' :: (List.replicate n ' ' ++ (c :: cs ++ '\r' :: rest))) =
      Except.ok (normalize_key name, c :: cs) := by
  have hcs : '\r' ∉ cs := fun h => hcr (List.mem_cons_of_mem c h)
  simp only [parse_header]
  rw [parse_headerAux_key _ _ _ _ _ hname, parse_headerAux_ws_skip]
  simp only [List.cons_append, parse_headerAux, if_pos hc, List.nil_append,
    List.append_eq]
  rw [parse_headerAux_value_CR _ _ _ _ _ hcs]
  simp

theorem parse_headerAux_value_valid (w : List Char) (k v : List Char) (b : Bool) :
    (parse_headerAux w Header.Value k v b).2.2 = b := by
  induction w generalizing v with
  | nil => simp [parse_headerAux]
  | cons c cs ih =>
      by_cases hc : c = '\r'
      · simp [parse_headerAux, hc]
      · simp [parse_headerAux, hc, ih]

theorem parse_headerAux_ws_valid (w : List Char) (k v : List Char) (b : Bool) :
    (parse_headerAux w Header.WS k v b).2.2 = b := by
  induction w generalizing v with
  | nil => simp [parse_headerAux]
  | cons c cs ih =>
      by_cases hc : c = ' '
      · simp [parse_headerAux, hc, ih]
      · simp [parse_headerAux, hc, parse_headerAux_value_valid]

theorem parse_headerAux_key_valid (w : List Char) (k v : List Char) :
    (parse_headerAux w Header.Key k v false).2.2 = true ↔ ':' ∈ w := by
  induction w generalizing k with
  | nil => simp [parse_headerAux]
  | cons c cs ih =>
      by_cases hc : c = ':'
      · simp [parse_headerAux, hc, parse_headerAux_ws_valid]
      · have hc2 : ':' ≠ c := fun h => hc h.symm
        simp [parse_headerAux, hc, hc2, ih]

/-! ### Claim theorems about `parse_header` -/

/-- Claim C3: for every well-formed header line
`name ++ ":" ++ spaces ++ value ++ "\r"` with `name` free of `:` and the
value starting with a non-space character and containing no `\r`, the
parser returns the name upper-cased with `-` replaced by `_`, and the
value with the one leading run of spaces stripped and the trailing `\r`
removed, unchanged otherwise. -/
theorem C3_parse_header_wellformed (name : List Char) (n : Nat) (c : Char) (cs : List Char)
    (hname : ':' ∉ name) (hc : c ≠ ' ') (hcr : '\r' ∉ c :: cs) :
    parse_header (name ++ ':' :: (List.replicate n ' ' ++ (c :: cs ++ ['\r']))) =
      Except.ok (normalize_key name, c :: cs) :=
  parse_header_wf_CR name n c cs [] hname hc hcr

/-- Witness for C3 on the concrete line `"X-Key:  val ue \r"`. -/
theorem C3_witness :
    (':' ∉ ("X-Key").toList ∧ 'v' ≠ ' ' ∧ '\r' ∉ 'v' :: ("al ue ").toList) ∧
      parse_header (("X-Key").toList ++ ':' ::
          (List.replicate 2 ' ' ++ ('v' :: ("al ue ").toList ++ ['\r']))) =
        Except.ok (normalize_key ("X-Key").toList, 'v' :: ("al ue ").toList) :=
  ⟨by decide, C3_parse_header_wellformed ("X-Key").toList 2 'v' ("al ue ").toList
    (by decide) (by decide) (by decide)⟩

/-- Claim C4: `parse_header` succeeds exactly on the lines that contain a
`:`; the missing colon is its sole failure mode. -/
theorem C4_parse_header_err_iff_no_colon (line : List Char) :
    (∃ r, parse_header line = Except.ok r) ↔ ':' ∈ line := by
  constructor
  · intro ⟨r, hr⟩
    simp only [parse_header] at hr
    by_cases hv : (parse_headerAux line Header.Key [] [] false).2.2 = true
    · exact (parse_headerAux_key_valid line [] []).mp hv
    · rw [if_neg hv] at hr
      exact Except.noConfusion hr
  · intro h
    have hv := (parse_headerAux_key_valid line [] []).mpr h
    exact ⟨(normalize_key (parse_headerAux line Header.Key [] [] false).1,
            (parse_headerAux line Header.Key [] [] false).2.1),
           by simp only [parse_header, if_pos hv]⟩

/-- Claim C10: a header line whose first non-space character after the
colon is the final `\r` yields the value `"\r"`, not `""`: the carriage
return is pushed into the value by the whitespace-skipping state before
the value state can strip it. -/
theorem C10_parse_header_empty_value_keeps_CR (name : List Char) (n : Nat)
    (hname : ':' ∉ name) :
    parse_header (name ++ ':' :: (List.replicate n ' ' ++ ['\r'])) =
      Except.ok (normalize_key name, ['\r']) := by
  simp only [parse_header]
  rw [parse_headerAux_key _ _ _ _ _ hname, parse_headerAux_ws_skip]
  simp [parse_headerAux]

/-- Witness for C10 on the concrete lines `"Key:\r"` and `"Key: \r"`. -/
theorem C10_witness :
    (':' ∉ ("Key").toList) ∧
      parse_header (("Key").toList ++ ':' :: (List.replicate 0 ' ' ++ ['\r'])) =
        Except.ok (normalize_key ("Key").toList, ['\r']) ∧
      parse_header (("Key").toList ++ ':' :: (List.replicate 1 ' ' ++ ['\r'])) =
        Except.ok (normalize_key ("Key").toList, ['\r']) :=
  ⟨by decide, C10_parse_header_empty_value_keeps_CR ("Key").toList 0 (by decide),
    C10_parse_header_empty_value_keeps_CR ("Key").toList 1 (by decide)⟩

/-! ### Lemmas about the exact-length body relay -/

theorem copy_exact_ok {α : Type} (L : Nat) :
    ∀ (src sink : List α), L ≤ src.length →
      copy_exact src sink L = some (sink ++ src.take L) := by
  induction L using Nat.strong_induction_on with
  | _ L ih =>
      intro src sink hL
      rw [copy_exact]
      by_cases h : BUFFER_SIZE < L
      · rw [dif_pos h]
        have hB : BUFFER_SIZE ≤ src.length := le_trans (le_of_lt h) hL
        rw [read_exact, if_pos hB]
        have hBpos : 0 < BUFFER_SIZE := by norm_num [BUFFER_SIZE]
        have hlen : L - BUFFER_SIZE ≤ (src.drop BUFFER_SIZE).length := by
          simp only [List.length_drop]
          omega
        dsimp only
        rw [ih (L - BUFFER_SIZE) (by omega) (src.drop BUFFER_SIZE)
          (sink ++ src.take BUFFER_SIZE) hlen]
        have htake : src.take BUFFER_SIZE ++ (src.drop BUFFER_SIZE).take (L - BUFFER_SIZE) =
            src.take L := by
          rw [← List.take_add]
          have hsum : BUFFER_SIZE + (L - BUFFER_SIZE) = L := by omega
          rw [hsum]
        rw [List.append_assoc, htake]
      · rw [dif_neg h]
        rw [read_exact, if_pos hL]

theorem copy_exact_fail {α : Type} (L : Nat) :
    ∀ (src sink : List α), src.length < L →
      copy_exact src sink L = none := by
  induction L using Nat.strong_induction_on with
  | _ L ih =>
      intro src sink hL
      rw [copy_exact]
      by_cases h : BUFFER_SIZE < L
      · rw [dif_pos h]
        by_cases hB : BUFFER_SIZE ≤ src.length
        · rw [read_exact, if_pos hB]
          have hBpos : 0 < BUFFER_SIZE := by norm_num [BUFFER_SIZE]
          have hlen : (src.drop BUFFER_SIZE).length < L - BUFFER_SIZE := by
            simp only [List.length_drop]
            omega
          dsimp only
          rw [ih (L - BUFFER_SIZE) (by omega) (src.drop BUFFER_SIZE)
            (sink ++ src.take BUFFER_SIZE) hlen]
        · rw [read_exact, if_neg hB]
      · rw [dif_neg h]
        rw [read_exact, if_neg (by omega)]

/-! ### Claim theorems about `copy_exact` -/

/-- Claim C1: for every length L and every source stream containing at
least L bytes, `copy_exact` returns Ok and the sink receives exactly the
first L bytes of the source, for any L including 0 and exact multiples
of the 64 KiB buffer size. -/
theorem C1_copy_exact_exact_transfer {α : Type} (src : List α) (L : Nat)
    (h : L ≤ src.length) :
    copy_exact src [] L = some (src.take L) := by
  rw [copy_exact_ok L src [] h, List.nil_append]

/-- Witness for C1 on a concrete 3-byte source with L = 2. -/
theorem C1_witness :
    2 ≤ ([10, 20, 30] : List Nat).length ∧
      copy_exact ([10, 20, 30] : List Nat) [] 2 = some (([10, 20, 30] : List Nat).take 2) :=
  ⟨by decide, C1_copy_exact_exact_transfer [10, 20, 30] 2 (by decide)⟩

/-- Claim C2: for every length L and every source stream containing fewer
than L bytes, `copy_exact` returns an I/O error rather than Ok; a short
source is never treated as a soft end-of-file. -/
theorem C2_copy_exact_short_source_errors {α : Type} (src : List α) (L : Nat)
    (h : src.length < L) :
    copy_exact src [] L = none :=
  copy_exact_fail L src [] h

/-- Witness for C2 on a concrete 1-byte source with L = 2. -/
theorem C2_witness :
    ([10] : List Nat).length < 2 ∧ copy_exact ([10] : List Nat) [] 2 = none :=
  ⟨by decide, C2_copy_exact_short_source_errors [10] 2 (by decide)⟩

/-! ### Lemmas about the request-line state machine -/

theorem set_requestAux_method (M : List Char) (rest : List Char)
    (m p q pr : List Char) (hM : ' ' ∉ M) :
    set_requestAux (M ++ ' ' :: rest) Req.Method m p q pr =
      set_requestAux rest Req.PathInfo (m ++ M) p q pr := by
  induction M generalizing m with
  | nil => simp [set_requestAux]
  | cons c cs ih =>
      have hc : c ≠ ' ' := fun h => hM (h ▸ List.mem_cons_self c cs)
      have h2 : ' ' ∉ cs := fun h => hM (List.mem_cons_of_mem c h)
      simp only [List.cons_append, set_requestAux, if_neg hc, List.append_eq]
      rw [ih (m ++ [c]) h2]
      simp

theorem set_requestAux_path_query (P : List Char) (rest : List Char)
    (m p q pr : List Char) (hP1 : ' ' ∉ P) (hP2 : '?' ∉ P) :
    set_requestAux (P ++ '?' :: rest) Req.PathInfo m p q pr =
      set_requestAux rest Req.QueryString m (p ++ P) q pr := by
  induction P generalizing p with
  | nil => simp [set_requestAux]
  | cons c cs ih =>
      have hc1 : c ≠ ' ' := fun h => hP1 (h ▸ List.mem_cons_self c cs)
      have hc2 : c ≠ '?' := fun h => hP2 (h ▸ List.mem_cons_self c cs)
      have h1 : ' ' ∉ cs := fun h => hP1 (List.mem_cons_of_mem c h)
      have h2 : '?' ∉ cs := fun h => hP2 (List.mem_cons_of_mem c h)
      simp only [List.cons_append, set_requestAux, if_neg hc1, if_neg hc2,
        List.append_eq]
      rw [ih (p ++ [c]) h1 h2]
      simp

theorem set_requestAux_path_proto (P : List Char) (rest : List Char)
    (m p q pr : List Char) (hP1 : ' ' ∉ P) (hP2 : '?' ∉ P) :
    set_requestAux (P ++ ' ' :: rest) Req.PathInfo m p q pr =
      set_requestAux rest Req.Protocol m (p ++ P) q pr := by
  induction P generalizing p with
  | nil => simp [set_requestAux]
  | cons c cs ih =>
      have hc1 : c ≠ ' ' := fun h => hP1 (h ▸ List.mem_cons_self c cs)
      have hc2 : c ≠ '?' := fun h => hP2 (h ▸ List.mem_cons_self c cs)
      have h1 : ' ' ∉ cs := fun h => hP1 (List.mem_cons_of_mem c h)
      have h2 : '?' ∉ cs := fun h => hP2 (List.mem_cons_of_mem c h)
      simp only [List.cons_append, set_requestAux, if_neg hc1, if_neg hc2,
        List.append_eq]
      rw [ih (p ++ [c]) h1 h2]
      simp

theorem set_requestAux_query (Q : List Char) (rest : List Char)
    (m p q pr : List Char) (hQ : ' ' ∉ Q) :
    set_requestAux (Q ++ ' ' :: rest) Req.QueryString m p q pr =
      set_requestAux rest Req.Protocol m p (q ++ Q) pr := by
  induction Q generalizing q with
  | nil => simp [set_requestAux]
  | cons c cs ih =>
      have hc : c ≠ ' ' := fun h => hQ (h ▸ List.mem_cons_self c cs)
      have h2 : ' ' ∉ cs := fun h => hQ (List.mem_cons_of_mem c h)
      simp only [List.cons_append, set_requestAux, if_neg hc, List.append_eq]
      rw [ih (q ++ [c]) h2]
      simp

theorem set_requestAux_proto (Pr : List Char) (rest : List Char)
    (m p q pr : List Char) (h1 : '\r' ∉ Pr) (h2 : '\n' ∉ Pr) :
    set_requestAux (Pr ++ '\r' :: rest) Req.Protocol m p q pr =
      ⟨m, p, q, pr ++ Pr⟩ := by
  induction Pr generalizing pr with
  | nil => simp [set_requestAux]
  | cons c cs ih =>
      have hc1 : c ≠ '\r' := fun h => h1 (h ▸ List.mem_cons_self c cs)
      have hc2 : c ≠ '\n' := fun h => h2 (h ▸ List.mem_cons_self c cs)
      have hr : '\r' ∉ cs := fun h => h1 (List.mem_cons_of_mem c h)
      have hn : '\n' ∉ cs := fun h => h2 (List.mem_cons_of_mem c h)
      have hcond : ¬(c = '\n' ∨ c = '\r') := fun h => h.elim hc2 hc1
      simp only [List.cons_append, set_requestAux, if_neg hcond, List.append_eq]
      rw [ih (pr ++ [c]) hr hn]
      simp

/-! ### Claim theorem about `set_request` -/

/-- Claim C5: for request lines `METHOD PATH?QUERY PROTOCOL\r\n` (method,
path and query free of spaces, path free of `?`, protocol free of line
terminators) the four extracted fields are exactly the four substrings,
and when no `?` is present the query string is empty. -/
theorem C5_set_request_fields (M P Q Pr : List Char)
    (hM : ' ' ∉ M) (hP1 : ' ' ∉ P) (hP2 : '?' ∉ P) (hQ : ' ' ∉ Q)
    (hPr1 : '\r' ∉ Pr) (hPr2 : '\n' ∉ Pr) :
    set_request (M ++ ' ' :: (P ++ '?' :: (Q ++ ' ' :: (Pr ++ ['\r', '\n'])))) =
        ⟨M, P, Q, Pr⟩ ∧
      set_request (M ++ ' ' :: (P ++ ' ' :: (Pr ++ ['\r', '\n']))) = ⟨M, P, [], Pr⟩ := by
  constructor
  · rw [set_request, set_requestAux_method _ _ _ _ _ _ hM,
      set_requestAux_path_query _ _ _ _ _ _ hP1 hP2,
      set_requestAux_query _ _ _ _ _ _ hQ]
    rw [show (Pr ++ ['\r', '\n'] : List Char) = Pr ++ '\r' :: ['\n'] from rfl,
      set_requestAux_proto _ _ _ _ _ _ hPr1 hPr2]
    simp
  · rw [set_request, set_requestAux_method _ _ _ _ _ _ hM,
      set_requestAux_path_proto _ _ _ _ _ _ hP1 hP2,
      show (Pr ++ ['\r', '\n'] : List Char) = Pr ++ '\r' :: ['\n'] from rfl,
      set_requestAux_proto _ _ _ _ _ _ hPr1 hPr2]
    simp

/-- Witness for C5 on the concrete request line
`"GET /foo?x=1 HTTP/1.0\r\n"` (and its query-free variant). -/
theorem C5_witness :
    (' ' ∉ ("GET").toList ∧ ' ' ∉ ("/foo").toList ∧ '?' ∉ ("/foo").toList ∧
        ' ' ∉ ("x=1").toList ∧ '\r' ∉ ("HTTP/1.0").toList ∧ '\n' ∉ ("HTTP/1.0").toList) ∧
      (set_request (("GET").toList ++ ' ' :: (("/foo").toList ++ '?' ::
            (("x=1").toList ++ ' ' :: (("HTTP/1.0").toList ++ ['\r', '\n'])))) =
          ⟨("GET").toList, ("/foo").toList, ("x=1").toList, ("HTTP/1.0").toList⟩ ∧
        set_request (("GET").toList ++ ' ' :: (("/foo").toList ++ ' ' ::
            (("HTTP/1.0").toList ++ ['\r', '\n']))) =
          ⟨("GET").toList, ("/foo").toList, [], ("HTTP/1.0").toList⟩) :=
  ⟨by decide,
    C5_set_request_fields ("GET").toList ("/foo").toList ("x=1").toList
      ("HTTP/1.0").toList (by decide) (by decide) (by decide) (by decide)
      (by decide) (by decide)⟩

/-! ### Claim theorems about `set_header` -/

/-- Claim C6: a `Content-Length` header with a value parsing as a
non-negative integer n stores n into the caller's content-length and sets
the environment key `CONTENT_LENGTH` (not `HTTP_CONTENT_LENGTH`) to the
value string; a `Content-Length` header whose value does not parse
returns the 400-class client error. -/
theorem C6_set_header_content_length (st : EnvState) (c : Char) (cs : List Char)
    (hc : c ≠ ' ') (hcr : '\r' ∉ c :: cs) :
    set_header (("Content-Length: ").toList ++ c :: cs) st =
      match parseUsize (c :: cs) with
      | some n =>
          (Except.ok (),
           { env := setVar st.env (("CONTENT_LENGTH").toList) (c :: cs),
             content_length := n })
      | none => (Except.error HTTP.e400, st) := by
  have hph : parse_header (("Content-Length: ").toList ++ c :: cs) =
      Except.ok (("CONTENT_LENGTH").toList, c :: cs) := by
    rw [show ("Content-Length: ").toList ++ c :: cs =
        ("Content-Length").toList ++ ':' :: (List.replicate 1 ' ' ++ c :: cs) from by
      rw [show ("Content-Length: ").toList =
          ("Content-Length").toList ++ ':' :: List.replicate 1 ' ' from by decide]
      simp]
    rw [parse_header_wf_noCR _ _ _ _ (by decide) hc hcr]
    rw [show normalize_key ("Content-Length").toList = ("CONTENT_LENGTH").toList from
      by decide]
  unfold set_header
  rw [hph]
  dsimp only
  rw [if_neg (by decide :
    ¬(("HTTP_").toList ++ ("CONTENT_LENGTH").toList = ("HTTP_CONTENT_TYPE").toList))]
  rw [if_pos (by decide :
    ("HTTP_").toList ++ ("CONTENT_LENGTH").toList = ("HTTP_CONTENT_LENGTH").toList)]

/-- Witness for C6 on the concrete headers `"Content-Length: 42"` and
`"Content-Length: abc"`. -/
theorem C6_witness :
    ('4' ≠ ' ' ∧ '\r' ∉ '4' :: ("2").toList ∧ 'a' ≠ ' ' ∧ '\r' ∉ 'a' :: ("bc").toList) ∧
      set_header (("Content-Length: ").toList ++ '4' :: ("2").toList)
          ⟨fun _ => none, 0⟩ =
        (match parseUsize ('4' :: ("2").toList) with
          | some n =>
              (Except.ok (),
               { env := setVar (fun _ => none) (("CONTENT_LENGTH").toList)
                   ('4' :: ("2").toList),
                 content_length := n })
          | none => (Except.error HTTP.e400, (⟨fun _ => none, 0⟩ : EnvState))) ∧
      set_header (("Content-Length: ").toList ++ 'a' :: ("bc").toList)
          ⟨fun _ => none, 0⟩ =
        (match parseUsize ('a' :: ("bc").toList) with
          | some n =>
              (Except.ok (),
               { env := setVar (fun _ => none) (("CONTENT_LENGTH").toList)
                   ('a' :: ("bc").toList),
                 content_length := n })
          | none => (Except.error HTTP.e400, (⟨fun _ => none, 0⟩ : EnvState))) :=
  ⟨by decide,
    C6_set_header_content_length ⟨fun _ => none, 0⟩ '4' ("2").toList
      (by decide) (by decide),
    C6_set_header_content_length ⟨fun _ => none, 0⟩ 'a' ("bc").toList
      (by decide) (by decide)⟩

/-- Claim C7: a `Content-Type` header is stored under environment key
`CONTENT_TYPE` (not `HTTP_CONTENT_TYPE`) with its value verbatim, and
every header whose normalized name is neither `CONTENT_TYPE` nor
`CONTENT_LENGTH` is stored verbatim under `HTTP_<NAME>` with `<NAME>`
the name upper-cased and `-` replaced by `_`. -/
theorem C7_set_header_env_keys (st : EnvState) (name : List Char) (n : Nat)
    (c : Char) (cs : List Char) (hname : ':' ∉ name) (hc : c ≠ ' ')
    (hcr : '\r' ∉ c :: cs)
    (ht : normalize_key name ≠ ("CONTENT_TYPE").toList)
    (hl : normalize_key name ≠ ("CONTENT_LENGTH").toList) :
    set_header (("Content-Type: ").toList ++ c :: cs) st =
        (Except.ok (),
         { st with env := setVar st.env (("CONTENT_TYPE").toList) (c :: cs) }) ∧
      set_header (name ++ ':' :: (List.replicate n ' ' ++ c :: cs)) st =
        (Except.ok (),
         { st with
            env := setVar st.env (("HTTP_").toList ++ normalize_key name) (c :: cs) }) := by
  constructor
  · have hph : parse_header (("Content-Type: ").toList ++ c :: cs) =
        Except.ok (("CONTENT_TYPE").toList, c :: cs) := by
      rw [show ("Content-Type: ").toList ++ c :: cs =
          ("Content-Type").toList ++ ':' :: (List.replicate 1 ' ' ++ c :: cs) from by
        rw [show ("Content-Type: ").toList =
            ("Content-Type").toList ++ ':' :: List.replicate 1 ' ' from by decide]
        simp]
      rw [parse_header_wf_noCR _ _ _ _ (by decide) hc hcr]
      rw [show normalize_key ("Content-Type").toList = ("CONTENT_TYPE").toList from
        by decide]
    unfold set_header
    rw [hph]
    dsimp only
    rw [if_pos (by decide :
      ("HTTP_").toList ++ ("CONTENT_TYPE").toList = ("HTTP_CONTENT_TYPE").toList)]
  · have hph : parse_header (name ++ ':' :: (List.replicate n ' ' ++ c :: cs)) =
        Except.ok (normalize_key name, c :: cs) :=
      parse_header_wf_noCR name n c cs hname hc hcr
    unfold set_header
    rw [hph]
    dsimp only
    rw [if_neg (fun hh : ("HTTP_").toList ++ normalize_key name =
        ("HTTP_CONTENT_TYPE").toList => ht (by
      rw [show ("HTTP_CONTENT_TYPE").toList =
          ("HTTP_").toList ++ ("CONTENT_TYPE").toList from by decide] at hh
      exact List.append_cancel_left hh))]
    rw [if_neg (fun hh : ("HTTP_").toList ++ normalize_key name =
        ("HTTP_CONTENT_LENGTH").toList => hl (by
      rw [show ("HTTP_CONTENT_LENGTH").toList =
          ("HTTP_").toList ++ ("CONTENT_LENGTH").toList from by decide] at hh
      exact List.append_cancel_left hh))]

/-- Witness for C7 on the concrete headers `"Content-Type: text/plain"`
and `"X-Key: v"`. -/
theorem C7_witness :
    (':' ∉ ("X-Key").toList ∧ 't' ≠ ' ' ∧ '\r' ∉ 't' :: ("ext/plain").toList ∧
        normalize_key ("X-Key").toList ≠ ("CONTENT_TYPE").toList ∧
        normalize_key ("X-Key").toList ≠ ("CONTENT_LENGTH").toList) ∧
      (set_header (("Content-Type: ").toList ++ 't' :: ("ext/plain").toList)
            ⟨fun _ => none, 0⟩ =
          (Except.ok (),
           { (⟨fun _ => none, 0⟩ : EnvState) with
              env := setVar (fun _ => none) (("CONTENT_TYPE").toList)
                ('t' :: ("ext/plain").toList) }) ∧
        set_header (("X-Key").toList ++ ':' ::
              (List.replicate 1 ' ' ++ 't' :: ("ext/plain").toList))
            ⟨fun _ => none, 0⟩ =
          (Except.ok (),
           { (⟨fun _ => none, 0⟩ : EnvState) with
              env := setVar (fun _ => none)
                (("HTTP_").toList ++ normalize_key ("X-Key").toList)
                ('t' :: ("ext/plain").toList) })) :=
  ⟨by decide,
    C7_set_header_env_keys ⟨fun _ => none, 0⟩ ("X-Key").toList 1 't'
      ("ext/plain").toList (by decide) (by decide) (by decide) (by decide) (by decide)⟩

/-- Claim C8: whenever `set_header` returns an error, the environment and
the caller's stored content-length are exactly as before the call: the
error paths leak no partial state. -/
theorem C8_set_header_error_is_atomic (line : List Char) (st : EnvState)
    (e : HTTP) (st2 : EnvState)
    (h : set_header line st = (Except.error e, st2)) : st2 = st := by
  unfold set_header at h
  cases hp : parse_header line with
  | error u =>
      rw [hp] at h
      exact (congrArg Prod.snd h).symm
  | ok kv =>
      obtain ⟨key, value⟩ := kv
      rw [hp] at h
      dsimp only at h
      by_cases h1 : ("HTTP_").toList ++ key = ("HTTP_CONTENT_TYPE").toList
      · rw [if_pos h1] at h
        exact Except.noConfusion (congrArg Prod.fst h)
      · rw [if_neg h1] at h
        by_cases h2 : ("HTTP_").toList ++ key = ("HTTP_CONTENT_LENGTH").toList
        · rw [if_pos h2] at h
          cases hp2 : parseUsize value with
          | none =>
              rw [hp2] at h
              exact (congrArg Prod.snd h).symm
          | some m =>
              rw [hp2] at h
              exact Except.noConfusion (congrArg Prod.fst h)
        · rw [if_neg h2] at h
          exact Except.noConfusion (congrArg Prod.fst h)

/-- Witness for C8 on the concrete error case of a line with no colon,
starting from a state with content-length 7. -/
theorem C8_witness :
    set_header (("no colon here").toList) ⟨fun _ => none, 7⟩ =
        (Except.error HTTP.e400, (⟨fun _ => none, 7⟩ : EnvState)) ∧
      (⟨fun _ => none, 7⟩ : EnvState) = ⟨fun _ => none, 7⟩ :=
  ⟨rfl, C8_set_header_error_is_atomic ("no colon here").toList
    ⟨fun _ => none, 7⟩ HTTP.e400 ⟨fun _ => none, 7⟩ rfl⟩

/-! ### Claim theorem about the response status scan -/

/-- Claim C9: the response-side scan consults the first line whose parsed
header name is STATUS, emits exactly `HTTP/1.0 <value>\r\n` for it, and
every earlier successfully-parsed non-STATUS line is consumed and
discarded: it appears neither in the emitted bytes nor in the remainder
left for the raw relay. -/
theorem C9_status_scan_first_status (pre : List (List Char)) (sl : List Char)
    (rest : List (List Char)) (v : List Char)
    (hpre : ∀ l ∈ pre, ∃ k w, parse_header l = Except.ok (k, w) ∧ k ≠ ("STATUS").toList)
    (hsl : parse_header sl = Except.ok (("STATUS").toList, v)) :
    status_scan (pre ++ sl :: rest) =
      Except.ok (("HTTP/1.0 ").toList ++ v ++ ['\r', '\n'], rest) := by
  induction pre with
  | nil => simp [status_scan, hsl]
  | cons l ls ih =>
      obtain ⟨k, w, hok, hne⟩ := hpre l (List.mem_cons_self l ls)
      rw [List.cons_append, status_scan, hok]
      dsimp only
      rw [if_neg hne]
      exact ih fun x hx => hpre x (List.mem_cons_of_mem l hx)

/-- Witness for C9: one discarded `Content-Type` line before the
`Status` line, with a leftover body line. -/
theorem C9_witness :
    status_scan ([("Content-Type: text/html\r\n").toList] ++
        ("Status: 200 OK\r\n").toList :: [("hello").toList]) =
      Except.ok (("HTTP/1.0 ").toList ++ ("200 OK").toList ++ ['\r', '\n'],
        [("hello").toList]) :=
  C9_status_scan_first_status [("Content-Type: text/html\r\n").toList]
    (("Status: 200 OK\r\n").toList) [("hello").toList] (("200 OK").toList)
    (fun l hl => by
      rw [List.mem_singleton] at hl
      exact ⟨("CONTENT_TYPE").toList, ("text/html").toList, by rw [hl]; rfl,
        by decide⟩)
    (by rfl)

end Cgid
